import Mathlib

/-!
Verification development for the terraguard multi-sample consensus
extraction engine.  The definitions below are shallow embeddings of the
TypeScript sources:

* `src/app/src/app/api/extract/ensemble/route.ts` — JSON salvage helpers,
  bucketing, majority voting, the ensemble POST handler loop;
* `src/lib/risk.ts` — need normalization, risk scoring, facility matching.

Modelling conventions: JavaScript numbers used in confidence arithmetic are
modelled as `Rat` (exact rationals; the concrete values exercised by the
theorems are exactly representable as doubles, so the two agree there);
machine integers do not occur.  JavaScript string methods `toLowerCase` /
`trim` are modelled for the ASCII range (`trim` uses the full JS whitespace
set).  `localeCompare` and the default array sort are modelled as code-point
lexicographic comparison.  `Date.parse` / `new Date(...)` and `Date.now()`
are impure external dependencies and are passed in explicitly as a
`dateParse : String → Option Int` function (milliseconds since epoch, `none`
for NaN) and a `nowMs : Int` value.  `crypto.randomUUID()` is modelled as an
explicit stream of id strings supplied to the merge step.
-/

set_option allowUnsafeReducibility true

set_option maxRecDepth 8192

attribute [local semireducible] Rat.add Rat.mul Rat.inv Rat.sub Rat.neg Rat.div Rat.normalize

/-- Boolean test for the JavaScript whitespace set used by `String.prototype.trim`
and by the regex class `\s`. -/
def jsWhitespace (c : Char) : Bool :=
  decide (c.toNat = 32 ∨ c.toNat = 9 ∨ c.toNat = 10 ∨ c.toNat = 13 ∨
    c.toNat = 11 ∨ c.toNat = 12 ∨ c.toNat = 0xa0 ∨ c.toNat = 0x1680 ∨
    (0x2000 ≤ c.toNat ∧ c.toNat ≤ 0x200a) ∨ c.toNat = 0x2028 ∨ c.toNat = 0x2029 ∨
    c.toNat = 0x202f ∨ c.toNat = 0x205f ∨ c.toNat = 0x3000 ∨ c.toNat = 0xfeff)

/-- Drop leading and trailing JS whitespace from a character list. -/
def trimChars (l : List Char) : List Char :=
  ((l.dropWhile jsWhitespace).reverse.dropWhile jsWhitespace).reverse

/-- Model of JavaScript `String.prototype.trim`. -/
def jsTrim (s : String) : String := String.mk (trimChars s.data)

/-- Model of JavaScript `String.prototype.toLowerCase` on the ASCII range. -/
def jsToLowerChar (c : Char) : Char :=
  if 65 ≤ c.toNat && c.toNat ≤ 90 then Char.ofNat (c.toNat + 32) else c

/-- Lower-case every character of a string (ASCII model of `toLowerCase`). -/
def jsToLower (s : String) : String := String.mk (s.data.map jsToLowerChar)

/-- Does the character list start with the given pattern? -/
def charsStartWith : List Char → List Char → Bool
  | _, [] => true
  | [], _ :: _ => false
  | c :: cs, p :: ps => c = p && charsStartWith cs ps

/-- Does the character list contain the pattern as a contiguous sublist? -/
def charsContain : List Char → List Char → Bool
  | [], pat => pat.isEmpty
  | c :: rest, pat => charsStartWith (c :: rest) pat || charsContain rest pat

/-- Substring test on strings; a regex alternation of literal words
`/(w1|w2|…)/.test(n)` is exactly a disjunction of such tests. -/
def containsSub (s pat : String) : Bool := charsContain s.data pat.data

/-- Disjunction of literal substring tests, modelling `/(p1|p2|…)/.test(n)`. -/
def testAny (n : String) (pats : List String) : Bool :=
  pats.any (fun p => containsSub n p)

/-- Stable insertion of an element into a list: `x` is placed before the
first element `y` with `le x y`, so ties keep the original order. -/
def insertLe {α : Type} (le : α → α → Bool) (x : α) : List α → List α
  | [] => [x]
  | y :: ys => if le x y then x :: y :: ys else y :: insertLe le x ys

/-- Stable sort by a boolean comparator.  For a comparator that is a total
preorder this computes the unique stable sorted permutation, which is what
the (ES2019+) JavaScript `Array.prototype.sort` produces. -/
def jsSortBy {α : Type} (le : α → α → Bool) : List α → List α
  | [] => []
  | x :: xs => insertLe le x (jsSortBy le xs)

/-- The `ordered keyword rules of `normalizeNeeds` from `src/lib/risk.ts`:
each rule is the literal alternatives of its regex together with the
canonical token it produces.  The if/else-if chain of the source is the
first-match scan over this list. -/
def NEED_RULES : List (List String × String) :=
  [(["emt", "medic", "injur", "medical", "first aid"], "medical"),
   (["rescue", "trapped", "us&r", "usar"], "rescue"),
   (["evac", "shelter", "displace"], "evacuation"),
   (["fire", "smoke", "gas"], "fire"),
   (["utility", "electric", "power", "lines", "gas", "water main"], "utility"),
   (["public works", "debris", "sandbag", "pump", "road"], "public-works"),
   (["security", "crowd", "police"], "security"),
   (["water"], "water"),
   (["food"], "food")]

/-- Rule phase of the `normalizeNeeds` loop body from `src/lib/risk.ts`,
applied to the already lower-cased and trimmed phrase `n`: skip it when
empty, otherwise the first matching rule wins, with pass-through for
unmatched phrases. -/
def canonTokenAux (n : String) : Option String :=
  if n = "" then none
  else
    match NEED_RULES.find? fun r => testAny n r.1 with
    | some r => some r.2
    | none => some n

/-- Per-phrase body of the `normalizeNeeds` loop: lower-case and trim the
phrase (`(raw || "").toLowerCase().trim()`), then apply the keyword rules. -/
def canonToken (raw : String) : Option String :=
  canonTokenAux (jsTrim (jsToLower raw))

/-- First-seen-order deduplication with an accumulator of already seen
elements; `jsSetDedup` below models `Array.from(new Set(...))`. -/
def dedupGo (seen : List String) : List String → List String
  | [] => []
  | x :: xs => if seen.contains x then dedupGo seen xs else x :: dedupGo (x :: seen) xs

/-- Model of `Array.from(new Set(l))`: keep the first occurrence of each
element, in first-seen order. -/
def jsSetDedup (l : List String) : List String := dedupGo [] l

/-- The `normalizeNeeds` from `src/lib/risk.ts`: canonicalize every phrase via the
keyword rules and deduplicate preserving first-seen order. -/
def normalizeNeeds (needs : List String) : List String :=
  jsSetDedup (needs.filterMap canonToken)

/-- Severity weight table `SEVERITY_WEIGHT` from `src/lib/risk.ts`; `none`
models a key absent from the record. -/
def SEVERITY_WEIGHT : String → Option Nat
  | "low" => some 10
  | "moderate" => some 35
  | "high" => some 60
  | "critical" => some 80
  | _ => none

/-- Need weight table `NEED_WEIGHT` from `src/lib/risk.ts`, with the `|| 0`
default applied at lookup sites folded in. -/
def NEED_WEIGHT : String → Nat
  | "medical" => 25
  | "rescue" => 20
  | "evacuation" => 15
  | "fire" => 20
  | "utility" => 12
  | "public-works" => 12
  | "security" => 10
  | "water" => 8
  | "food" => 8
  | _ => 0

/-- JavaScript `Math.round`: round half toward positive infinity. -/
def jsRound (q : Rat) : Int := Int.floor (q + 1/2)

/-- The `computeRiskScore` from `src/lib/risk.ts`.  `dateParse` models
`Date.parse` (`none` for NaN) and `nowMs` models `Date.now()`. -/
def computeRiskScore (dateParse : String → Option Int) (nowMs : Int)
    (severity : Option String) (needs : List String)
    (time_iso : Option String) : Int :=
  let base : Rat :=
    match severity with
    | some s =>
      if s ≠ "" then
        match SEVERITY_WEIGHT s with
        | some w => (w : Rat)
        | none => 0
      else 0
    | none => 0
  let norm := normalizeNeeds needs
  let weights := (jsSortBy (fun a b => decide (b ≤ a)) (norm.map fun n => NEED_WEIGHT n)).take 2
  let score1 : Rat := base + ((weights.map fun w => (w : Rat)).sum)
  let score2 : Rat :=
    match time_iso with
    | some t =>
      if t ≠ "" then
        match dateParse t with
        | some ms =>
          let ageH : Rat := ((nowMs - ms : Int) : Rat) / 3600000
          if ageH > 12 then score1 * (7/10)
          else if ageH > 6 then score1 * (8/10)
          else if ageH > 2 then score1 * (9/10)
          else score1
        | none => score1
      else score1 * (9/10)
    | none => score1 * (9/10)
  max 0 (min 100 (jsRound score2))

/-- Facility type enumeration from `src/slices/knowledgeSlice.ts`. -/
inductive FacilityType
  | hospital
  | shelter
  | fire
  | police
  | publicWorks
  | utility
deriving DecidableEq

/-- Facility record from `src/slices/knowledgeSlice.ts`. -/
structure Facility where
  id : String
  type : FacilityType
  name : String
  address : Option String
  phone : Option String
  notes : Option String
  capabilities : Option (List String)
deriving DecidableEq

/-- Table `NEED_TO_FACILITY` from `src/lib/risk.ts` (with `|| []` folded in). -/
def NEED_TO_FACILITY : String → List FacilityType
  | "medical" => [.hospital]
  | "rescue" => [.fire]
  | "fire" => [.fire]
  | "evacuation" => [.shelter]
  | "public-works" => [.publicWorks]
  | "utility" => [.utility]
  | "water" => [.publicWorks, .shelter]
  | "food" => [.shelter]
  | "security" => [.police]
  | _ => []

/-- Table `NEED_TO_CAPS` from `src/lib/risk.ts` (with `|| []` folded in). -/
def NEED_TO_CAPS : String → List String
  | "medical" => ["er", "trauma", "icu", "pediatric", "surgery", "helipad"]
  | "rescue" => ["usar", "rope", "swiftwater", "hazmat"]
  | "fire" => ["firefighting", "hazmat"]
  | "evacuation" => ["shelter", "cots", "blankets", "accessible", "pets"]
  | "public-works" => ["pumps", "sandbags", "debris", "heavy-equipment"]
  | "utility" => ["linecrew", "electric", "gas", "water", "substation"]
  | "water" => ["water", "pumps", "bottled-water"]
  | "food" => ["food", "meals"]
  | "security" => ["crowd-control", "perimeter", "traffic"]
  | _ => []

/-- Table `TYPE_WEIGHT` from `src/lib/risk.ts` (with `|| 0` folded in). -/
def TYPE_WEIGHT : FacilityType → Nat
  | .hospital => 30
  | .fire => 25
  | .shelter => 18
  | .publicWorks => 15
  | .utility => 15
  | .police => 12

/-- Desired facility types accumulated over the normalized needs; the JS
`Set` is modelled as a list consulted only through membership. -/
def desiredTypesFor (norm : List String) : List FacilityType :=
  norm.foldl (fun acc n => acc ++ NEED_TO_FACILITY n) []

/-- Desired capability tags accumulated over the normalized needs; the JS
`Set` is modelled as a list consulted only through membership. -/
def desiredCapsFor (norm : List String) : List String :=
  norm.foldl (fun acc n => acc ++ NEED_TO_CAPS n) []

/-- The `scoreFacility` from `src/lib/risk.ts`: type-weight bonus when the
facility type is desired plus 8 points per matching lower-cased capability. -/
def scoreFacility (f : Facility) (desiredTypes : List FacilityType)
    (desiredCaps : List String) : Nat :=
  (if desiredTypes.contains f.type then TYPE_WEIGHT f.type else 0) +
    ((f.capabilities.getD []).map jsToLower).countP (fun c => desiredCaps.contains c) * 8

/-- The `suggestFacilities` from `src/lib/risk.ts`: score all facilities, sort by
the comparator `b.score - a.score || a.f.name.localeCompare(b.f.name)`
(stable), drop zero scores, return the top `limit`. -/
def suggestFacilities (needs : List String) (facilities : List Facility)
    (limit : Nat) : List Facility :=
  let norm := normalizeNeeds needs
  if norm.isEmpty then []
  else
    let desiredTypes := desiredTypesFor norm
    let desiredCaps := desiredCapsFor norm
    let scored := facilities.map fun f => (f, scoreFacility f desiredTypes desiredCaps)
    let sorted := jsSortBy (fun a b =>
      decide (b.2 < a.2 ∨ (b.2 = a.2 ∧ a.1.name ≤ b.1.name))) scored
    ((sorted.filter fun s => 0 < s.2).take limit).map fun s => s.1

/-- Score a facility against a raw needs list the way `suggestFacilities`
does internally; used to state ordering properties of its output. -/
def facilityScoreFor (needs : List String) (f : Facility) : Nat :=
  scoreFacility f (desiredTypesFor (normalizeNeeds needs))
    (desiredCapsFor (normalizeNeeds needs))

/-- JSON value, the result of a successful `JSON.parse`.  Numbers are kept as
exact rationals (JSON numeric literals are decimal). -/
inductive Json where
  | null
  | bool (b : Bool)
  | num (q : Rat)
  | str (s : String)
  | arr (elems : List Json)
  | obj (fields : List (String × Json))
deriving BEq

/-- JSON insignificant whitespace accepted by `JSON.parse`. -/
def jsonWs (c : Char) : Bool := c = ' ' || c = '\t' || c = '\n' || c = '\r'

/-- Drop leading JSON whitespace. -/
def skipJsonWs (cs : List Char) : List Char := cs.dropWhile jsonWs

/-- Value of a hexadecimal digit, if the character is one. -/
def hexVal (c : Char) : Option Nat :=
  if '0' ≤ c && c ≤ '9' then some (c.toNat - 48)
  else if 'a' ≤ c && c ≤ 'f' then some (c.toNat - 87)
  else if 'A' ≤ c && c ≤ 'F' then some (c.toNat - 55)
  else none

/-- Decimal digit test. -/
def isDigitCh (c : Char) : Bool := '0' ≤ c && c ≤ '9'

/-- Numeric value of a digit sequence. -/
def natOfDigits (ds : List Char) : Nat := ds.foldl (fun a c => a * 10 + (c.toNat - 48)) 0

/-- Body of a JSON string literal (after the opening quote): handles the JSON
escape sequences and rejects raw control characters, as `JSON.parse` does. -/
def parseJsonStringAux : Nat → List Char → List Char → Option (String × List Char)
  | 0, _, _ => none
  | _ + 1, _, [] => none
  | fuel + 1, acc, c :: rest =>
    if c = '"' then some (String.mk acc.reverse, rest)
    else if c = '\\' then
      match rest with
      | [] => none
      | e :: rest2 =>
        if e = '"' then parseJsonStringAux fuel ('"' :: acc) rest2
        else if e = '\\' then parseJsonStringAux fuel ('\\' :: acc) rest2
        else if e = '/' then parseJsonStringAux fuel ('/' :: acc) rest2
        else if e = 'b' then parseJsonStringAux fuel (Char.ofNat 8 :: acc) rest2
        else if e = 'f' then parseJsonStringAux fuel (Char.ofNat 12 :: acc) rest2
        else if e = 'n' then parseJsonStringAux fuel ('\n' :: acc) rest2
        else if e = 'r' then parseJsonStringAux fuel ('\r' :: acc) rest2
        else if e = 't' then parseJsonStringAux fuel ('\t' :: acc) rest2
        else if e = 'u' then
          match rest2 with
          | h1 :: h2 :: h3 :: h4 :: rest3 =>
            match hexVal h1, hexVal h2, hexVal h3, hexVal h4 with
            | some a, some b, some c2, some d =>
              parseJsonStringAux fuel (Char.ofNat (((a * 16 + b) * 16 + c2) * 16 + d) :: acc) rest3
            | _, _, _, _ => none
          | _ => none
        else none
    else if c.toNat < 32 then none
    else parseJsonStringAux fuel (c :: acc) rest

/-- Ten to a natural power, as a rational. -/
def pow10 (n : Nat) : Rat := ((10 ^ n : Nat) : Rat)

/-- Optional exponent part of a JSON number. -/
def parseExpPart (cs : List Char) : Option (Int × List Char) :=
  match cs with
  | c :: rest =>
    if c = 'e' || c = 'E' then
      let signedRest : Int × List Char :=
        match rest with
        | '+' :: r => (1, r)
        | '-' :: r => (-1, r)
        | _ => (1, rest)
      let ds := signedRest.2.takeWhile isDigitCh
      if ds.isEmpty then none
      else some (signedRest.1 * (natOfDigits ds : Int), signedRest.2.dropWhile isDigitCh)
    else some (0, cs)
  | [] => some (0, [])

/-- A JSON number literal in the strict grammar accepted by `JSON.parse`
(no leading zeros, mandatory digits around the decimal point). -/
def parseJsonNumber (cs : List Char) : Option (Rat × List Char) :=
  let signSplit : Bool × List Char :=
    match cs with
    | '-' :: rest => (true, rest)
    | _ => (false, cs)
  let cs1 := signSplit.2
  let intDigits := cs1.takeWhile isDigitCh
  if intDigits.isEmpty then none
  else if 1 < intDigits.length && intDigits.head? = some '0' then none
  else
    let cs2 := cs1.dropWhile isDigitCh
    let fracSplit : Option (List Char × List Char) :=
      match cs2 with
      | '.' :: rest =>
        let fd := rest.takeWhile isDigitCh
        if fd.isEmpty then none else some (fd, rest.dropWhile isDigitCh)
      | _ => some ([], cs2)
    match fracSplit with
    | none => none
    | some (fracDigits, cs3) =>
      match parseExpPart cs3 with
      | none => none
      | some (e, cs4) =>
        let base : Rat :=
          (natOfDigits intDigits : Rat) + (natOfDigits fracDigits : Rat) / pow10 fracDigits.length
        let scaled : Rat := if 0 ≤ e then base * pow10 e.toNat else base / pow10 (-e).toNat
        some (if signSplit.1 then -scaled else scaled, cs4)

mutual

/-- Parse one JSON value, returning the remaining input.  Fuel decreases on
every recursive call; callers supply `length + 1`. -/
def parseJsonValue : Nat → List Char → Option (Json × List Char)
  | 0, _ => none
  | fuel + 1, cs =>
    let t := skipJsonWs cs
    if charsStartWith t "true".data then some (Json.bool true, t.drop 4)
    else if charsStartWith t "false".data then some (Json.bool false, t.drop 5)
    else if charsStartWith t "null".data then some (Json.null, t.drop 4)
    else
      match t with
      | '\x7b' :: rest =>
        (match skipJsonWs rest with
         | '\x7d' :: rest2 => some (Json.obj [], rest2)
         | _ => parseJsonMembers fuel rest [])
      | '[' :: rest =>
        (match skipJsonWs rest with
         | ']' :: rest2 => some (Json.arr [], rest2)
         | _ => parseJsonElems fuel rest [])
      | '"' :: rest =>
        (match parseJsonStringAux (rest.length + 1) [] rest with
         | some (s, rest2) => some (Json.str s, rest2)
         | none => none)
      | _ => (parseJsonNumber t).map fun p => (Json.num p.1, p.2)

/-- Parse the members of a JSON object (after at least one is known to follow). -/
def parseJsonMembers : Nat → List Char → List (String × Json) → Option (Json × List Char)
  | 0, _, _ => none
  | fuel + 1, cs, acc =>
    match skipJsonWs cs with
    | '"' :: rest =>
      (match parseJsonStringAux (rest.length + 1) [] rest with
       | some (key, rest2) =>
         (match skipJsonWs rest2 with
          | ':' :: rest3 =>
            (match parseJsonValue fuel rest3 with
             | some (v, rest4) =>
               (match skipJsonWs rest4 with
                | ',' :: rest5 => parseJsonMembers fuel rest5 (acc ++ [(key, v)])
                | '\x7d' :: rest5 => some (Json.obj (acc ++ [(key, v)]), rest5)
                | _ => none)
             | none => none)
          | _ => none)
       | none => none)
    | _ => none

/-- Parse the elements of a JSON array (after at least one is known to follow). -/
def parseJsonElems : Nat → List Char → List Json → Option (Json × List Char)
  | 0, _, _ => none
  | fuel + 1, cs, acc =>
    match parseJsonValue fuel cs with
    | some (v, rest) =>
      (match skipJsonWs rest with
       | ',' :: rest2 => parseJsonElems fuel rest2 (acc ++ [v])
       | ']' :: rest2 => some (Json.arr (acc ++ [v]), rest2)
       | _ => none)
    | none => none

end

/-- Model of `JSON.parse`: one JSON value surrounded by optional whitespace,
`none` for a `SyntaxError`. -/
def jsonParse (s : String) : Option Json :=
  match parseJsonValue (s.length + 1) s.data with
  | some (v, rest) => if (skipJsonWs rest).isEmpty then some v else none
  | none => none

/-- Last-wins field lookup on a JSON object, matching the duplicate-key
behavior of `JSON.parse`; `none` models `undefined`. -/
def jsonGetField (j : Json) (key : String) : Option Json :=
  match j with
  | Json.obj fields => ((fields.reverse.find? fun kv => kv.1 == key).map fun kv => kv.2)
  | _ => none

/-- The dynamic value salvaged from one model response, coerced to the
`ExtractResponse` shape: a list of (still untyped) report objects. -/
structure ExtractResponse where
  reports : List Json
deriving BEq

/-- The `coerceToExtractResponse` from `route.ts`: arrays are the report list, an
object with a `reports` array uses it, a bare object is a singleton list,
anything else (including `null`) gives an empty list. -/
def coerceToExtractResponse (val : Json) : ExtractResponse :=
  match val with
  | Json.arr elems => ⟨elems⟩
  | Json.obj fields =>
    (match jsonGetField (Json.obj fields) "reports" with
     | some (Json.arr reps) => ⟨reps⟩
     | _ => ⟨[Json.obj fields]⟩)
  | _ => ⟨[]⟩

/-- First index at which the pattern occurs as a contiguous sublist, the
Option-valued counterpart of JavaScript `indexOf`. -/
def idxOfSub : List Char → List Char → Option Nat
  | l, pat =>
    match l with
    | [] => if pat.isEmpty then some 0 else none
    | _ :: rest =>
      if charsStartWith l pat then some 0
      else (idxOfSub rest pat).map (· + 1)

/-- The `betweenTags` from `route.ts`: the substring strictly between the first
occurrence of `openTag` and the next occurrence of `closeTag` after it. -/
def betweenTags (s openTag closeTag : String) : Option String :=
  match idxOfSub s.data openTag.data with
  | none => none
  | some i =>
    let after := (s.data.drop (i + openTag.length))
    match idxOfSub after closeTag.data with
    | none => none
    | some j => some (String.mk (after.take j))

/-- One match of the fence regex ``/```(?:json)?\s*([\s\S]*?)\s*```/gi`` at
the head of the input: consume the opening ticks, an optional
case-insensitive `json` tag and leading whitespace, find the earliest
closing ticks (the capture group is lazy), and return the capture (trailing
whitespace stripped) together with the input after the match. -/
def fenceAt (cs : List Char) : Option (List Char × List Char) :=
  if charsStartWith cs "```".data then
    let afterTicks := cs.drop 3
    let afterTag :=
      if (afterTicks.take 4).map jsToLowerChar = "json".data then afterTicks.drop 4 else afterTicks
    let afterWs := afterTag.dropWhile jsWhitespace
    match idxOfSub afterWs "```".data with
    | none => none
    | some r =>
      let mid := afterWs.take r
      some ((mid.reverse.dropWhile jsWhitespace).reverse, afterWs.drop (r + 3))
  else none

/-- Global replacement loop of `stripCodeFences`: at each position replace a
fence match by its capture group, otherwise keep the character. -/
def stripFencesAux : Nat → List Char → List Char
  | 0, cs => cs
  | _ + 1, [] => []
  | fuel + 1, c :: rest =>
    match fenceAt (c :: rest) with
    | some (group, after) => group ++ stripFencesAux fuel after
    | none => c :: stripFencesAux fuel rest

/-- The `stripCodeFences` from `route.ts`. -/
def stripCodeFences (s : String) : String := String.mk (stripFencesAux s.length s.data)

/-- Scanner of `extractBalancedJson`: walk the characters from the opening
bracket keeping the literal quirks of the source (a backslash sets the
escape flag even outside strings; a quote right after a backslash character
never toggles the in-string flag). -/
def ebjScan (startCh endCh : Char) :
    List Char → Option Char → Bool → Bool → Int → List Char → Option (List Char)
  | [], _, _, _, _, _ => none
  | ch :: rest, prev, inStr, esc, depth, acc =>
    if esc then ebjScan startCh endCh rest (some ch) inStr false depth (acc ++ [ch])
    else if ch = '\\' then ebjScan startCh endCh rest (some ch) inStr true depth (acc ++ [ch])
    else
      let inStr2 := if ch = '"' && prev ≠ some '\\' then !inStr else inStr
      if inStr2 then ebjScan startCh endCh rest (some ch) inStr2 false depth (acc ++ [ch])
      else if ch = startCh then ebjScan startCh endCh rest (some ch) inStr2 false (depth + 1) (acc ++ [ch])
      else if ch = endCh then
        if depth - 1 = 0 then some (acc ++ [ch])
        else ebjScan startCh endCh rest (some ch) inStr2 false (depth - 1) (acc ++ [ch])
      else ebjScan startCh endCh rest (some ch) inStr2 false depth (acc ++ [ch])

/-- One bracket-kind attempt of `extractBalancedJson`: find the first
occurrence of `startCh` and scan for its balanced closing character. -/
def extractBalancedTry (s : List Char) (startCh endCh : Char) : Option (List Char) :=
  let pre := s.takeWhile fun c => c ≠ startCh
  if pre.length = s.length then none
  else ebjScan startCh endCh (s.drop pre.length) pre.getLast? false false 0 []

/-- The `extractBalancedJson` from `route.ts`: first try a brace span, then a
bracket span. -/
def extractBalancedJson (s : String) : Option String :=
  match extractBalancedTry s.data '\x7b' '\x7d' with
  | some span => some (String.mk span)
  | none =>
    match extractBalancedTry s.data '[' ']' with
    | some span => some (String.mk span)
    | none => none

/-- Try `JSON.parse` on each candidate in order; the first success is coerced
to an `ExtractResponse`. -/
def firstParse : List String → Except String ExtractResponse
  | [] => Except.error "Model did not return valid JSON"
  | c :: rest =>
    match jsonParse c with
    | some v => Except.ok (coerceToExtractResponse v)
    | none => firstParse rest

/-- The `parseModelJson` from `route.ts`: build the ordered candidate list (raw
text, fence-stripped text if different, tag-delimited substring, balanced
span), drop empties, deduplicate preserving order, and take the first
successful parse. -/
def parseModelJson (raw : String) : Except String ExtractResponse :=
  let candidates := [raw]
  let noFences := stripCodeFences raw
  let candidates := candidates ++ (if noFences ≠ raw then [noFences] else [])
  let candidates := candidates ++
    (match betweenTags raw "<json>" "</json>" with
     | some t => if t ≠ "" then [t] else []
     | none => [])
  let candidates := candidates ++
    (match extractBalancedJson raw with
     | some b => if b ≠ "" then [b] else []
     | none => [])
  firstParse (jsSetDedup (candidates.filter fun c => c ≠ ""))

/-- Outcome of one generation attempt in the `POST` handler loop: either the
HTTP call failed (`!r.ok`, carrying the status and error text) or it
returned and `data.response` is the optional raw model text. -/
inductive AttemptResult where
  | httpError (status : Nat) (errText : String)
  | ok (response : Option String)

/-- An error response returned by the handler (`NextResponse.json({error},{status})`). -/
structure HttpErrorResp where
  status : Nat
  message : String
deriving DecidableEq

/-- The `generation loop of the `POST` handler (route.ts lines 222-250): walk
the attempt outcomes in order; a failed HTTP call aborts the whole request
with a 503 error; an empty trimmed response is skipped; a response that
fails `parseModelJson` is skipped; successful parses are accumulated in
order as the runs. -/
def collectRuns : List AttemptResult → Except HttpErrorResp (List ExtractResponse)
  | [] => Except.ok []
  | AttemptResult.httpError st txt :: _ =>
    Except.error ⟨503, "Ollama error: " ++ toString st ++ " " ++ txt⟩
  | AttemptResult.ok response :: rest =>
    let content := jsTrim (response.getD "")
    if content = "" then collectRuns rest
    else
      match parseModelJson content with
      | Except.ok run => (collectRuns rest).map fun rs => run :: rs
      | Except.error _ => collectRuns rest

/-- The per-attempt salvage outcome, as the loop body of `collectRuns`
computes it for one attempt. -/
def salvageAttempt : AttemptResult → Option ExtractResponse
  | AttemptResult.httpError _ _ => none
  | AttemptResult.ok response =>
    let content := jsTrim (response.getD "")
    if content = "" then none
    else
      match parseModelJson content with
      | Except.ok run => some run
      | Except.error _ => none

/-- Number of attempts that returned any non-empty response text (the
denominator the specification prescribes for the confidence rule, counted
from the claim's words, not from the code). -/
def attemptsWithResponseText (attempts : List AttemptResult) : Nat :=
  attempts.countP fun a =>
    match a with
    | AttemptResult.ok response => !(jsTrim (response.getD "") == "")
    | AttemptResult.httpError _ _ => false

/-- A report of the declared TypeScript shape `ExtractedReport` (the typed
data model the merge phase of the handler operates on; `none` models both
`null` and an absent optional field, which the handler's `?? null`
accesses identify). -/
structure ExtractedReport where
  location_text : Option String
  time_iso : Option String
  severity : Option String
  needs : List String
  dedupe_key : Option String
  notes : Option String
deriving DecidableEq

/-- The `norm` from `route.ts`: `(s ?? "").trim().toLowerCase()`. -/
def norm (s : Option String) : String := jsToLower (jsTrim (s.getD ""))

/-- Proleptic Gregorian date from a day count relative to 1970-01-01
(standard civil-from-days computation, used to model the `getUTC*`
accessors of a JavaScript `Date`). -/
def civilFromDays (day : Int) : Int × Nat × Nat :=
  let z := day + 719468
  let era := Int.ediv z 146097
  let doe := (Int.emod z 146097).toNat
  let yoe := (doe - doe / 1460 + doe / 36524 - doe / 146096) / 365
  let y := (yoe : Int) + era * 400
  let doy := doe - (365 * yoe + yoe / 4 - yoe / 100)
  let mp := (5 * doy + 2) / 153
  let d := doy - (153 * mp + 2) / 5 + 1
  let m := if mp < 10 then mp + 3 else mp - 9
  (if m ≤ 2 then y + 1 else y, m, d)

/-- The minute-resolution key component built from a millisecond timestamp:
`` `${y}-${getUTCMonth}-${getUTCDate} ${getUTCHours}:${getUTCMinutes}` ``
(`getUTCMonth` is zero-based). -/
def utcMinuteString (ms : Int) : String :=
  let day := Int.ediv ms 86400000
  let tod := (Int.emod ms 86400000).toNat
  let ymd := civilFromDays day
  let h := tod / 3600000
  let mi := tod % 3600000 / 60000
  toString ymd.1 ++ "-" ++ toString (ymd.2.1 - 1) ++ "-" ++ toString ymd.2.2 ++
    " " ++ toString h ++ ":" ++ toString mi

/-- The `minuteBucket` from `route.ts`; falsy (`null` or empty) and unparseable
time strings contribute an empty component. -/
def minuteBucket (dateParse : String → Option Int) (iso : Option String) : String :=
  match iso with
  | none => ""
  | some s =>
    if s = "" then ""
    else
      match dateParse s with
      | none => ""
      | some ms => utcMinuteString ms

/-- The `makeKey` from `route.ts`: a truthy explicit `dedupe_key` wins (prefixed
with `d:`), otherwise the derived `k:` key from normalized location, minute
bucket, raw severity and the sorted comma-joined lower-cased-trimmed needs. -/
def makeKey (dateParse : String → Option Int) (r : ExtractedReport) : String :=
  let loc := norm r.location_text
  let time := minuteBucket dateParse r.time_iso
  let sev := r.severity.getD ""
  let needs := String.intercalate ","
    (jsSortBy (fun a b => decide (a ≤ b)) (r.needs.map fun n => jsTrim (jsToLower n)))
  let derived := "k:" ++ loc ++ "|" ++ time ++ "|" ++ sev ++ "|" ++ needs
  match r.dedupe_key with
  | some dk => if dk ≠ "" then "d:" ++ norm (some dk) else derived
  | none => derived

/-- Hexadecimal digit character (lower case). -/
def hexDigit (n : Nat) : Char := if n < 10 then Char.ofNat (48 + n) else Char.ofNat (87 + n)

/-- JSON escape of one character, as `JSON.stringify` produces it. -/
def escapeJsonChar (c : Char) : List Char :=
  if c = '"' then ['\\', '"']
  else if c = '\\' then ['\\', '\\']
  else if c = '\n' then ['\\', 'n']
  else if c = '\r' then ['\\', 'r']
  else if c = '\t' then ['\\', 't']
  else if c.toNat = 8 then ['\\', 'b']
  else if c.toNat = 12 then ['\\', 'f']
  else if c.toNat < 32 then ['\\', 'u', '0', '0', hexDigit (c.toNat / 16), hexDigit (c.toNat % 16)]
  else [c]

/-- The `JSON.stringify` of a string value. -/
def jsonStringifyString (s : String) : String :=
  String.mk ('"' :: (s.data.map escapeJsonChar).flatten ++ ['"'])

/-- The `JSON.stringify(v ?? null)` for the nullable string values the majority
vote is applied to. -/
def jsonStringifyOptStr : Option String → String
  | none => "null"
  | some s => jsonStringifyString s

/-- Increment the count of a key in an insertion-ordered association list
(new keys are appended, modelling `Map.set` insertion order). -/
def bumpCount : List (String × Nat) → String → List (String × Nat)
  | [], key => [(key, 1)]
  | (k, c) :: rest, key =>
    if k = key then (k, c + 1) :: rest else (k, c) :: bumpCount rest key

/-- Count stored for a key (`m.get(key) || 0`). -/
def lookupCount (m : List (String × Nat)) (key : String) : Nat :=
  ((m.find? fun kv => kv.1 == key).map fun kv => kv.2).getD 0

/-- Loop body of `majority`: count the stringified value and update the best
entry only on a strictly larger count (first-seen value wins ties). -/
def majorityStep (st : List (String × Nat) × (Option String × Nat)) (v : Option String) :
    List (String × Nat) × (Option String × Nat) :=
  let key := jsonStringifyOptStr v
  let c := lookupCount st.1 key + 1
  if c > st.2.2 then (bumpCount st.1 key, (v, c)) else (bumpCount st.1 key, st.2)

/-- The `majority` from `route.ts`: the most frequent value (by stringified key)
with its count; ties are broken by the first-encountered value. -/
def majority (arr : List (Option String)) : Option String × Nat :=
  (arr.foldl majorityStep ([], (none, 0))).2

/-- The `loop body of the frequency count of `needsConsensus`: count one need
phrase, lower-cased and trimmed, skipping empty tokens. -/
def needsCountStep (m : List (String × Nat)) (n : String) : List (String × Nat) :=
  let key := jsTrim (jsToLower n)
  if key = "" then m else bumpCount m key

/-- The frequency map accumulated over all candidate need lists. -/
def needsCounts (allNeeds : List (List String)) : List (String × Nat) :=
  allNeeds.foldl (fun m list => list.foldl needsCountStep m) []

/-- The `needsConsensus` from `route.ts`: sort the count entries by count
descending (stable), keep the tokens meeting the `ceil(k/2)` majority
threshold, fall back to the top 3 when none does, and compute the capped
confidence `min(1, Σ counts of chosen / (k * max(1, |chosen|)))`. -/
def needsConsensus (allNeeds : List (List String)) (k : Nat) : List String × Rat :=
  let counts := needsCounts allNeeds
  let entries := jsSortBy (fun a b => decide (b.2 ≤ a.2)) counts
  let threshold := (k + 1) / 2
  let chosen := (entries.filter fun e => threshold ≤ e.2).map fun e => e.1
  let chosen2 := if chosen.isEmpty then (entries.take 3).map fun e => e.1 else chosen
  let conf : Rat :=
    if entries.isEmpty then 0
    else
      min 1 ((chosen2.map fun n => (lookupCount counts n : Rat)).sum /
        ((k : Rat) * ((max 1 chosen2.length : Nat) : Rat)))
  (chosen2, conf)

/-- The per-bucket accumulator of the merge loop (route.ts lines 253-289). -/
structure Bucket where
  locs : List (Option String)
  times : List (Option String)
  sevs : List (Option String)
  needs : List (List String)
  notes : List (Option String)
  dedupe_keys : List (Option String)
deriving DecidableEq

/-- The empty bucket. -/
def emptyBucket : Bucket := ⟨[], [], [], [], [], []⟩

/-- Push one report's fields into a bucket; the severity is validated against
the enumeration and replaced by `null` otherwise, exactly as the source
does at push time. -/
def pushRep (b : Bucket) (rep : ExtractedReport) : Bucket :=
  { locs := b.locs ++ [rep.location_text]
    times := b.times ++ [rep.time_iso]
    sevs := b.sevs ++
      [match rep.severity with
       | some s => if ["low", "moderate", "high", "critical"].contains s then some s else none
       | none => none]
    needs := b.needs ++ [rep.needs]
    notes := b.notes ++ [rep.notes]
    dedupe_keys := b.dedupe_keys ++ [rep.dedupe_key] }

/-- Route one report into the insertion-ordered bucket list by its key. -/
def addToBuckets (dateParse : String → Option Int) (bs : List (String × Bucket))
    (rep : ExtractedReport) : List (String × Bucket) :=
  let key := makeKey dateParse rep
  if bs.any fun kb => kb.1 == key then
    bs.map fun kb => if kb.1 == key then (kb.1, pushRep kb.2 rep) else kb
  else bs ++ [(key, pushRep emptyBucket rep)]

/-- Build the bucket map over all runs and reports, in iteration order. -/
def buildBuckets (dateParse : String → Option Int)
    (runs : List (List ExtractedReport)) : List (String × Bucket) :=
  runs.foldl (fun bs run => run.foldl (addToBuckets dateParse) bs) []

/-- The `runs.length || 1`: the confidence denominator the handler actually uses. -/
def usedK (n : Nat) : Nat := if n = 0 then 1 else n

/-- The `Number(x.toFixed(3))`: round to three decimals (ties away from zero for
the nonnegative values that occur here). -/
def roundTo3 (q : Rat) : Rat := ((jsRound (q * 1000) : Int) : Rat) / 1000

/-- The `isNaN` on the exact rational model: rationals are never NaN, so this is
constantly false; kept so the `filter` of the source stays visible. -/
def jsIsNaN (_ : Rat) : Bool := false

/-- One merged consensus record of the handler response. -/
structure MergedReport where
  id : String
  location_text : Option String
  time_iso : Option String
  severity : Option String
  needs : List String
  notes : Option String
  dedupe_key : Option String
  confidence_overall : Rat
  conf_location_text : Rat
  conf_time_iso : Rat
  conf_severity : Rat
  conf_needs : Rat
deriving DecidableEq

/-- Body of the per-bucket merge loop (route.ts lines 292-332): majority
votes, per-field confidences `count / k`, needs consensus, the overall
average over the non-NaN parts, and the 3-decimal rounding. -/
def mkMergedRecord (k : Nat) (idStr : String) (b : Bucket) : MergedReport :=
  let locMaj := majority b.locs
  let timeMaj := majority b.times
  let sevMaj := majority b.sevs
  let needsMaj := needsConsensus b.needs k
  let notesMaj := majority b.notes
  let dedupMaj := majority b.dedupe_keys
  let confLoc : Rat := (locMaj.2 : Rat) / (k : Rat)
  let confTime : Rat := (timeMaj.2 : Rat) / (k : Rat)
  let confSev : Rat := (sevMaj.2 : Rat) / (k : Rat)
  let confNeeds := needsMaj.2
  let parts := [confLoc, confTime, confSev, confNeeds].filter fun n => !(jsIsNaN n)
  let overall : Rat := if parts.length ≠ 0 then parts.sum / (parts.length : Rat) else 0
  { id := idStr
    location_text := locMaj.1
    time_iso := timeMaj.1
    severity := sevMaj.1
    needs := needsMaj.1
    notes := notesMaj.1
    dedupe_key := dedupMaj.1
    confidence_overall := roundTo3 overall
    conf_location_text := roundTo3 confLoc
    conf_time_iso := roundTo3 confTime
    conf_severity := roundTo3 confSev
    conf_needs := roundTo3 confNeeds }

/-- The `merge phase of the `POST` handler (route.ts lines 252-333) on typed
reports: bucket all reports of all runs, then merge each bucket with the
constant denominator `k = runs.length || 1`.  The `crypto.randomUUID()`
stream is supplied as the list `ids`, consumed by bucket position. -/
def mergeRuns (dateParse : String → Option Int) (ids : List String)
    (runs : List (List ExtractedReport)) : List MergedReport :=
  let buckets := buildBuckets dateParse runs
  let k := usedK runs.length
  buckets.enum.map fun ie => mkMergedRecord k (ids.getD ie.1 "") ie.2.2

/-- A merged record with the generated id field blanked, for stating what is
and is not determined by the voting inputs. -/
def stripId (m : MergedReport) : MergedReport := { m with id := "" }

/-- Decode one nullable-string field of a dynamic report (`none` result of
the lookup models an absent field, identified with `null` by the `?? null`
accesses); fails on values outside the declared type. -/
def decodeOptString : Option Json → Option (Option String)
  | none => some none
  | some Json.null => some none
  | some (Json.str s) => some (some s)
  | some _ => none

/-- Decode the `needs` field the way the handler reads it: a non-array value
becomes `[]` (`Array.isArray(rep.needs) ? rep.needs : []`); array elements
must be strings for the report to be well typed. -/
def decodeNeeds : Option Json → Option (List String)
  | some (Json.arr elems) =>
    elems.mapM fun e =>
      match e with
      | Json.str s => some s
      | _ => none
  | _ => some []

/-- Decode a dynamic report object into the declared typed shape; `none` when
the value is not a well-typed report. -/
def decodeReport (j : Json) : Option ExtractedReport :=
  match j with
  | Json.obj _ =>
    (match decodeOptString (jsonGetField j "location_text"),
           decodeOptString (jsonGetField j "time_iso"),
           decodeOptString (jsonGetField j "severity"),
           decodeNeeds (jsonGetField j "needs"),
           decodeOptString (jsonGetField j "dedupe_key"),
           decodeOptString (jsonGetField j "notes") with
     | some l, some t, some sv, some nd, some dk, some nt =>
       some ⟨l, t, sv, nd, dk, nt⟩
     | _, _, _, _, _, _ => none)
  | _ => none

/-- Characters built from small code points evaluate back to them. -/
theorem toNat_ofNat_small (n : Nat) (h : n < 55296) : (Char.ofNat n).toNat = n := by
  have hv : n.isValidChar := Or.inl (by omega)
  simp [Char.ofNat, hv, Char.ofNatAux, Char.toNat, UInt32.toNat, BitVec.toNat_ofNatLt]

/-- ASCII lower-casing is idempotent. -/
theorem jsToLowerChar_idem (c : Char) : jsToLowerChar (jsToLowerChar c) = jsToLowerChar c := by
  by_cases h : (65 ≤ c.toNat && c.toNat ≤ 90) = true
  · have hb := Bool.and_eq_true_iff.mp h
    have h65 : 65 ≤ c.toNat := by simpa using hb.1
    have h90 : c.toNat ≤ 90 := by simpa using hb.2
    have hsmall : (Char.ofNat (c.toNat + 32)).toNat = c.toNat + 32 :=
      toNat_ofNat_small _ (by omega)
    have h1 : jsToLowerChar c = Char.ofNat (c.toNat + 32) := by
      unfold jsToLowerChar
      rw [if_pos h]
    have hcond : ¬ ((65 ≤ (Char.ofNat (c.toNat + 32)).toNat &&
        (Char.ofNat (c.toNat + 32)).toNat ≤ 90) = true) := by
      rw [hsmall]
      simp only [Bool.and_eq_true, decide_eq_true_eq, not_and]
      omega
    rw [h1]
    unfold jsToLowerChar
    rw [if_neg hcond]
  · have h1 : jsToLowerChar c = c := by
      unfold jsToLowerChar
      rw [if_neg h]
    rw [h1]
    exact h1

/-- Lower-casing does not change whether a character is JS whitespace. -/
theorem jsWhitespace_jsToLowerChar (c : Char) :
    jsWhitespace (jsToLowerChar c) = jsWhitespace c := by
  by_cases h : (65 ≤ c.toNat && c.toNat ≤ 90) = true
  · have hb := Bool.and_eq_true_iff.mp h
    have h65 : 65 ≤ c.toNat := by simpa using hb.1
    have h90 : c.toNat ≤ 90 := by simpa using hb.2
    have hsmall : (Char.ofNat (c.toNat + 32)).toNat = c.toNat + 32 :=
      toNat_ofNat_small _ (by omega)
    have h1 : jsToLowerChar c = Char.ofNat (c.toNat + 32) := by
      unfold jsToLowerChar
      rw [if_pos h]
    rw [h1]
    unfold jsWhitespace
    rw [hsmall]
    rw [decide_eq_decide]
    omega
  · have h1 : jsToLowerChar c = c := by
      unfold jsToLowerChar
      rw [if_neg h]
    rw [h1]

/-- Dropping a prefix by a predicate is idempotent. -/
theorem dropWhile_idem {α : Type} (p : α → Bool) (l : List α) :
    (l.dropWhile p).dropWhile p = l.dropWhile p := by
  induction l with
  | nil => rfl
  | cons x xs ih =>
    by_cases h : p x = true
    · simp [List.dropWhile_cons, h, ih]
    · simp [List.dropWhile_cons, h]

/-- The `head surviving a `dropWhile` fails the predicate. -/
theorem dropWhile_head_false {α : Type} (p : α → Bool) (l : List α) (x : α) (xs : List α)
    (h : l.dropWhile p = x :: xs) : p x = false := by
  induction l with
  | nil => simp at h
  | cons y ys ih =>
    by_cases hy : p y = true
    · rw [List.dropWhile_cons, if_pos hy] at h
      exact ih h
    · rw [List.dropWhile_cons, if_neg hy] at h
      cases h
      exact Bool.of_not_eq_true hy

/-- Trimming is idempotent. -/
theorem trimChars_idem (l : List Char) : trimChars (trimChars l) = trimChars l := by
  have hsuffix :
      (l.dropWhile jsWhitespace).reverse.dropWhile jsWhitespace <:+
        (l.dropWhile jsWhitespace).reverse :=
    List.dropWhile_suffix jsWhitespace
  have hBA :
      ((l.dropWhile jsWhitespace).reverse.dropWhile jsWhitespace).reverse <+:
        l.dropWhile jsWhitespace := by
    simpa using (List.reverse_prefix).mpr hsuffix
  have hdropB :
      (((l.dropWhile jsWhitespace).reverse.dropWhile jsWhitespace).reverse).dropWhile jsWhitespace
        = ((l.dropWhile jsWhitespace).reverse.dropWhile jsWhitespace).reverse := by
    cases hB : ((l.dropWhile jsWhitespace).reverse.dropWhile jsWhitespace).reverse with
    | nil => rfl
    | cons x B' =>
      rw [hB] at hBA
      rcases hBA with ⟨u, hu⟩
      have hAx : l.dropWhile jsWhitespace = x :: (B' ++ u) := by
        rw [← hu]
        rfl
      have hpx : jsWhitespace x = false := dropWhile_head_false _ l x _ hAx
      rw [List.dropWhile_cons, if_neg (by simp [hpx])]
  unfold trimChars
  rw [hdropB, List.reverse_reverse, dropWhile_idem]

/-- Trimming commutes with lower-casing. -/
theorem trimChars_map_lower (l : List Char) :
    trimChars (l.map jsToLowerChar) = (trimChars l).map jsToLowerChar := by
  have hcomp : jsWhitespace ∘ jsToLowerChar = jsWhitespace := funext jsWhitespace_jsToLowerChar
  simp [trimChars, List.dropWhile_map, hcomp, ← List.map_reverse]

/-- Lower-casing twice is the same as once, for character lists. -/
theorem map_lower_idem (l : List Char) :
    (l.map jsToLowerChar).map jsToLowerChar = l.map jsToLowerChar := by
  rw [List.map_map]
  apply List.map_congr_left
  intro a _
  exact jsToLowerChar_idem a

/-- The lower-case-then-trim normalization of `normalizeNeeds` phrases is
idempotent. -/
theorem lowTrim_idem (s : String) :
    jsTrim (jsToLower (jsTrim (jsToLower s))) = jsTrim (jsToLower s) := by
  have key : trimChars (List.map jsToLowerChar (trimChars (List.map jsToLowerChar s.data)))
      = trimChars (List.map jsToLowerChar s.data) :=
    calc trimChars (List.map jsToLowerChar (trimChars (List.map jsToLowerChar s.data)))
        = List.map jsToLowerChar (trimChars (trimChars (List.map jsToLowerChar s.data))) :=
          trimChars_map_lower _
      _ = List.map jsToLowerChar (trimChars (List.map jsToLowerChar s.data)) := by
          rw [trimChars_idem]
      _ = trimChars (List.map jsToLowerChar (List.map jsToLowerChar s.data)) :=
          (trimChars_map_lower _).symm
      _ = trimChars (List.map jsToLowerChar s.data) := by rw [map_lower_idem]
  show String.mk (trimChars (List.map jsToLowerChar (trimChars (List.map jsToLowerChar s.data))))
      = String.mk (trimChars (List.map jsToLowerChar s.data))
  exact congrArg String.mk key

/-- What the rule phase can output: the input itself (pass-through) or one of
the canonical tokens of the rule table. -/
theorem canonTokenAux_out (n t : String) (h : canonTokenAux n = some t) :
    t = n ∨ t ∈ NEED_RULES.map (fun r => r.2) := by
  unfold canonTokenAux at h
  by_cases h0 : n = ""
  · rw [if_pos h0] at h
    cases h
  · rw [if_neg h0] at h
    cases hf : NEED_RULES.find? fun r => testAny n r.1 with
    | none =>
      rw [hf] at h
      injection h with h'
      exact Or.inl h'.symm
    | some r =>
      rw [hf] at h
      injection h with h'
      subst h'
      exact Or.inr (List.mem_map_of_mem _ (List.mem_of_find?_eq_some hf))

/-- Every token `normalizeNeeds` can emit is a fixed point of the per-phrase
canonicalization: the nine canonical tokens map to themselves, and
pass-through tokens are already lower-cased and trimmed. -/
theorem canonToken_fix (raw t : String) (h : canonToken raw = some t) :
    canonToken t = some t := by
  unfold canonToken at h
  rcases canonTokenAux_out _ _ h with rfl | hmem
  · unfold canonToken
    rw [lowTrim_idem]
    exact h
  · simp only [NEED_RULES, List.map_cons, List.map_nil, List.mem_cons,
      List.not_mem_nil, or_false] at hmem
    rcases hmem with rfl | rfl | rfl | rfl | rfl | rfl | rfl | rfl | rfl
    · decide
    · decide
    · decide
    · decide
    · decide
    · decide
    · decide
    · decide
    · decide

/-- Elements produced by `dedupGo` come from its input and are not in the
seen accumulator. -/
theorem dedupGo_mem (l : List String) : ∀ (seen : List String) (x : String),
    x ∈ dedupGo seen l → x ∈ l ∧ x ∉ seen := by
  induction l with
  | nil =>
    intro seen x hx
    simp [dedupGo] at hx
  | cons y ys ih =>
    intro seen x hx
    unfold dedupGo at hx
    by_cases hy : seen.contains y = true
    · rw [if_pos hy] at hx
      rcases ih seen x hx with ⟨h1, h2⟩
      exact ⟨List.mem_cons_of_mem _ h1, h2⟩
    · rw [if_neg hy] at hx
      rcases List.mem_cons.mp hx with rfl | hx2
      · refine ⟨List.mem_cons_self _ _, ?_⟩
        intro hmem
        exact hy (List.elem_iff.mpr hmem)
      · rcases ih (y :: seen) x hx2 with ⟨h1, h2⟩
        refine ⟨List.mem_cons_of_mem _ h1, ?_⟩
        intro hmem
        exact h2 (List.mem_cons_of_mem _ hmem)

/-- The `dedupGo` never emits duplicates. -/
theorem dedupGo_nodup (l : List String) : ∀ seen : List String, (dedupGo seen l).Nodup := by
  induction l with
  | nil =>
    intro seen
    simp [dedupGo]
  | cons y ys ih =>
    intro seen
    unfold dedupGo
    by_cases hy : seen.contains y = true
    · rw [if_pos hy]
      exact ih seen
    · rw [if_neg hy]
      refine List.nodup_cons.mpr ⟨?_, ih (y :: seen)⟩
      intro hmem
      rcases dedupGo_mem ys (y :: seen) y hmem with ⟨_, h2⟩
      exact h2 (List.mem_cons_self _ _)

/-- The `dedupGo` is the identity on duplicate-free lists disjoint from the seen
accumulator. -/
theorem dedupGo_eq_self (l : List String) : ∀ seen : List String,
    l.Nodup → (∀ x ∈ l, x ∉ seen) → dedupGo seen l = l := by
  induction l with
  | nil =>
    intro seen _ _
    rfl
  | cons y ys ih =>
    intro seen hnd hs
    unfold dedupGo
    have hy : ¬ seen.contains y = true := by
      intro hc
      exact hs y (List.mem_cons_self _ _) (List.elem_iff.mp hc)
    rw [if_neg hy]
    congr 1
    refine ih (y :: seen) (List.nodup_cons.mp hnd).2 ?_
    intro x hx hmem
    rcases List.mem_cons.mp hmem with rfl | hseen
    · exact (List.nodup_cons.mp hnd).1 hx
    · exact hs x (List.mem_cons_of_mem _ hx) hseen

/-- The `JS `Set` dedup emits no duplicates. -/
theorem jsSetDedup_nodup (l : List String) : (jsSetDedup l).Nodup := dedupGo_nodup l []

/-- The `JS `Set` dedup only keeps input elements. -/
theorem jsSetDedup_mem (l : List String) (x : String) (h : x ∈ jsSetDedup l) : x ∈ l :=
  (dedupGo_mem l [] x h).1

/-- The `JS `Set` dedup fixes duplicate-free lists. -/
theorem jsSetDedup_of_nodup (l : List String) (h : l.Nodup) : jsSetDedup l = l :=
  dedupGo_eq_self l [] h (fun x _ hx => (List.not_mem_nil x) hx)

/-- The `JS `Set` dedup is idempotent. -/
theorem jsSetDedup_idem (l : List String) : jsSetDedup (jsSetDedup l) = jsSetDedup l :=
  jsSetDedup_of_nodup _ (jsSetDedup_nodup l)

/-- The `filterMap` by a function fixing every member is the identity. -/
theorem filterMap_fix {α : Type} (f : α → Option α) (l : List α)
    (h : ∀ a ∈ l, f a = some a) : l.filterMap f = l := by
  induction l with
  | nil => rfl
  | cons x xs ih =>
    simp only [List.filterMap_cons, h x (List.mem_cons_self _ _)]
    rw [ih (fun a ha => h a (List.mem_cons_of_mem _ ha))]

/-- Members of a normalized needs list are fixed points of the per-phrase
canonicalization. -/
theorem normalizeNeeds_mem_fix (xs : List String) (t : String) (h : t ∈ normalizeNeeds xs) :
    canonToken t = some t := by
  have h1 : t ∈ xs.filterMap canonToken := jsSetDedup_mem _ _ h
  rcases List.mem_filterMap.mp h1 with ⟨raw, _, hraw⟩
  exact canonToken_fix raw t hraw

/-- The `normalizeNeeds` is idempotent. -/
theorem normalizeNeeds_idem (xs : List String) :
    normalizeNeeds (normalizeNeeds xs) = normalizeNeeds xs := by
  unfold normalizeNeeds
  rw [filterMap_fix canonToken (jsSetDedup (xs.filterMap canonToken))
    (fun a ha => normalizeNeeds_mem_fix xs a ha)]
  exact jsSetDedup_idem _

/-- Stable insertion permutes the extended list. -/
theorem insertLe_perm {α : Type} (le : α → α → Bool) (x : α) (l : List α) :
    (insertLe le x l).Perm (x :: l) := by
  induction l with
  | nil => exact List.Perm.refl _
  | cons y ys ih =>
    unfold insertLe
    by_cases h : le x y = true
    · rw [if_pos h]
    · rw [if_neg h]
      exact (List.Perm.cons y ih).trans (List.Perm.swap x y ys)

/-- The stable sort permutes its input. -/
theorem jsSortBy_perm {α : Type} (le : α → α → Bool) (l : List α) :
    (jsSortBy le l).Perm l := by
  induction l with
  | nil => exact List.Perm.refl _
  | cons x xs ih =>
    unfold jsSortBy
    exact (insertLe_perm le x _).trans (List.Perm.cons x ih)

/-- Stable insertion preserves sortedness for a transitive total comparator. -/
theorem insertLe_sorted {α : Type} (le : α → α → Bool)
    (htrans : ∀ a b c, le a b = true → le b c = true → le a c = true)
    (htotal : ∀ a b, le a b = true ∨ le b a = true)
    (x : α) (l : List α) (hl : List.Pairwise (fun a b => le a b = true) l) :
    List.Pairwise (fun a b => le a b = true) (insertLe le x l) := by
  induction l with
  | nil => simp [insertLe]
  | cons y ys ih =>
    unfold insertLe
    by_cases h : le x y = true
    · rw [if_pos h]
      refine List.Pairwise.cons ?_ hl
      intro z hz
      rcases List.mem_cons.mp hz with rfl | hz2
      · exact h
      · exact htrans x y z h (List.rel_of_pairwise_cons hl hz2)
    · rw [if_neg h]
      have hyx : le y x = true := (htotal x y).resolve_left h
      refine List.pairwise_cons.mpr ⟨?_, ih (List.pairwise_cons.mp hl).2⟩
      intro z hz
      have hz' := (insertLe_perm le x ys).mem_iff.mp hz
      rcases List.mem_cons.mp hz' with rfl | hz2
      · exact hyx
      · exact (List.pairwise_cons.mp hl).1 z hz2

/-- The stable sort sorts, for a transitive total comparator. -/
theorem jsSortBy_sorted {α : Type} (le : α → α → Bool)
    (htrans : ∀ a b c, le a b = true → le b c = true → le a c = true)
    (htotal : ∀ a b, le a b = true ∨ le b a = true)
    (l : List α) : List.Pairwise (fun a b => le a b = true) (jsSortBy le l) := by
  induction l with
  | nil => simp [jsSortBy]
  | cons x xs ih => exact insertLe_sorted le htrans htotal x _ ih

/-- Bumping a key increments its stored count. -/
theorem lookupCount_bumpCount_self (m : List (String × Nat)) (key : String) :
    lookupCount (bumpCount m key) key = lookupCount m key + 1 := by
  induction m with
  | nil => simp [bumpCount, lookupCount, List.find?]
  | cons kv rest ih =>
    obtain ⟨k, c⟩ := kv
    by_cases h : k = key
    · subst h
      simp [bumpCount, lookupCount, List.find?]
    · have hb : (k == key) = false := beq_eq_false_iff_ne.mpr h
      simp only [bumpCount, if_neg h]
      simp only [lookupCount, List.find?, hb]
      exact ih

/-- Bumping a key leaves other counts unchanged. -/
theorem lookupCount_bumpCount_other (m : List (String × Nat)) (key key' : String)
    (h : key' ≠ key) :
    lookupCount (bumpCount m key) key' = lookupCount m key' := by
  induction m with
  | nil =>
    have hb : (key == key') = false := beq_eq_false_iff_ne.mpr (Ne.symm h)
    simp [bumpCount, lookupCount, List.find?, hb]
  | cons kv rest ih =>
    obtain ⟨k, c⟩ := kv
    by_cases hk : k = key
    · subst hk
      have hb : (k == key') = false := beq_eq_false_iff_ne.mpr (fun he => h he.symm)
      simp [bumpCount, lookupCount, List.find?, hb]
    · simp only [bumpCount, if_neg hk]
      by_cases hk' : k = key'
      · subst hk'
        simp [lookupCount, List.find?]
      · have hb : (k == key') = false := beq_eq_false_iff_ne.mpr hk'
        simp only [lookupCount, List.find?, hb]
        exact ih

/-- A key with a positive count is an entry of the count map. -/
theorem lookupCount_mem (m : List (String × Nat)) (t : String)
    (h : 0 < lookupCount m t) : (t, lookupCount m t) ∈ m := by
  unfold lookupCount at h ⊢
  cases hf : m.find? fun kv => kv.1 == t with
  | none =>
    rw [hf] at h
    simp at h
  | some e =>
    have he1 : e.1 = t := by
      have := List.find?_some hf
      simpa using this
    have hmem := List.mem_of_find?_eq_some hf
    show (t, e.2) ∈ m
    rw [← he1]
    exact hmem

/-- Folding one need list over the count map adds exactly the occurrence
count of a (nonempty) token. -/
theorem lookupCount_inner (t : String) (ht : t ≠ "") (list : List String) :
    ∀ m, lookupCount (list.foldl needsCountStep m) t
      = lookupCount m t + list.countP (fun n => jsTrim (jsToLower n) == t) := by
  induction list with
  | nil =>
    intro m
    simp
  | cons n ns ih =>
    intro m
    rw [List.foldl_cons, List.countP_cons, ih]
    by_cases hn : jsTrim (jsToLower n) = t
    · have hkey : ¬ jsTrim (jsToLower n) = "" := by
        rw [hn]
        exact ht
      have hstep : needsCountStep m n = bumpCount m t := by
        unfold needsCountStep
        rw [if_neg hkey, hn]
      have hb : (jsTrim (jsToLower n) == t) = true := beq_iff_eq.mpr hn
      rw [hstep, lookupCount_bumpCount_self, if_pos hb]
      omega
    · have hb : (jsTrim (jsToLower n) == t) = false := beq_eq_false_iff_ne.mpr hn
      have hstep : lookupCount (needsCountStep m n) t = lookupCount m t := by
        unfold needsCountStep
        by_cases hk : jsTrim (jsToLower n) = ""
        · rw [if_pos hk]
        · rw [if_neg hk]
          exact lookupCount_bumpCount_other m _ t fun he => hn he.symm
      rw [hstep, if_neg (by simp [hb])]
      omega

/-- The total count of a token is at least the number of candidate need
lists containing it. -/
theorem lookupCount_needsCounts (t : String) (ht : t ≠ "") (allNeeds : List (List String)) :
    allNeeds.countP (fun list => list.any fun n => jsTrim (jsToLower n) == t)
      ≤ lookupCount (needsCounts allNeeds) t := by
  unfold needsCounts
  have main : ∀ (ls : List (List String)) (m : List (String × Nat)),
      lookupCount m t + ls.countP (fun list => list.any fun n => jsTrim (jsToLower n) == t)
        ≤ lookupCount (ls.foldl (fun m list => list.foldl needsCountStep m) m) t := by
    intro ls
    induction ls with
    | nil =>
      intro m
      simp
    | cons l ls ih =>
      intro m
      rw [List.foldl_cons, List.countP_cons]
      have hm' := lookupCount_inner t ht l m
      have hrec := ih (l.foldl needsCountStep m)
      by_cases hany : (l.any fun n => jsTrim (jsToLower n) == t) = true
      · have hone : 1 ≤ l.countP fun n => jsTrim (jsToLower n) == t := by
          rcases List.any_eq_true.mp hany with ⟨a, ha, hpa⟩
          exact List.countP_pos_iff.mpr ⟨a, ha, hpa⟩
        rw [if_pos hany]
        omega
      · rw [if_neg hany]
        omega
  have := main allNeeds []
  simpa [lookupCount, List.find?] using this

/-- Core of the needs-majority property: a nonempty token contained in at
least `ceil(k/2)` of the candidate lists is among the consensus needs. -/
theorem needsConsensus_majority_mem (allNeeds : List (List String)) (k : Nat) (t : String)
    (hk : 1 ≤ k) (ht : t ≠ "")
    (hmaj : (k + 1) / 2 ≤ allNeeds.countP fun l => l.any fun n => jsTrim (jsToLower n) == t) :
    t ∈ (needsConsensus allNeeds k).1 := by
  have hthr : 1 ≤ (k + 1) / 2 := by omega
  have hcount : (k + 1) / 2 ≤ lookupCount (needsCounts allNeeds) t :=
    le_trans hmaj (lookupCount_needsCounts t ht allNeeds)
  have hpos : 0 < lookupCount (needsCounts allNeeds) t := by omega
  have hmem : (t, lookupCount (needsCounts allNeeds) t) ∈ needsCounts allNeeds :=
    lookupCount_mem _ _ hpos
  have hmem2 : (t, lookupCount (needsCounts allNeeds) t)
      ∈ jsSortBy (fun a b => decide (b.2 ≤ a.2)) (needsCounts allNeeds) :=
    (jsSortBy_perm _ _).mem_iff.mpr hmem
  have hchosen : t ∈ ((jsSortBy (fun a b => decide (b.2 ≤ a.2)) (needsCounts allNeeds)).filter
      fun e => decide ((k + 1) / 2 ≤ e.2)).map fun e => e.1 := by
    refine List.mem_map.mpr ⟨(t, lookupCount (needsCounts allNeeds) t), ?_, rfl⟩
    refine List.mem_filter.mpr ⟨hmem2, ?_⟩
    exact decide_eq_true hcount
  have hne : ¬ ((((jsSortBy (fun a b => decide (b.2 ≤ a.2)) (needsCounts allNeeds)).filter
      fun e => decide ((k + 1) / 2 ≤ e.2)).map fun e => e.1).isEmpty = true) := by
    intro h
    rw [List.isEmpty_iff] at h
    rw [h] at hchosen
    exact (List.not_mem_nil t) hchosen
  simp only [needsConsensus]
  rw [if_neg hne]
  exact hchosen

/-- Has this attempt's HTTP call failed? -/
def isHttpError : AttemptResult → Bool
  | AttemptResult.httpError _ _ => true
  | AttemptResult.ok _ => false

/-- When no attempt's HTTP call fails, the loop succeeds and the collected
runs are exactly the per-attempt salvage results, in order. -/
theorem collectRuns_ok (attempts : List AttemptResult)
    (h : ∀ a ∈ attempts, isHttpError a = false) :
    collectRuns attempts = Except.ok (attempts.filterMap salvageAttempt) := by
  induction attempts with
  | nil => rfl
  | cons a rest ih =>
    have ih' := ih fun a ha => h a (List.mem_cons_of_mem _ ha)
    cases a with
    | httpError st txt =>
      have := h _ (List.mem_cons_self _ _)
      simp [isHttpError] at this
    | ok response =>
      by_cases hc : jsTrim (response.getD "") = ""
      · simp only [collectRuns, salvageAttempt, List.filterMap_cons, hc]
        simp [ih']
      · simp only [collectRuns, salvageAttempt, List.filterMap_cons, hc]
        cases hp : parseModelJson (jsTrim (response.getD "")) with
        | ok run =>
          simp [hp, ih']
          rfl
        | error e => simp [hp, ih']

/-- Salvaged-run count as a `countP` over attempts. -/
theorem length_filterMap_countP {α β : Type} (f : α → Option β) (l : List α) :
    (l.filterMap f).length = l.countP fun a => (f a).isSome := by
  induction l with
  | nil => rfl
  | cons x xs ih =>
    cases hf : f x with
    | none => simp [List.filterMap_cons, hf, List.countP_cons, ih]
    | some b => simp [List.filterMap_cons, hf, List.countP_cons, ih]

/-- The `n || 1` in JavaScript, on a natural count, is `max 1 n`. -/
theorem usedK_eq_max (n : Nat) : usedK n = max 1 n := by
  unfold usedK
  split <;> omega

/-- Blanking the id erases the only dependence of a merged record on the
generated id string. -/
theorem stripId_mkMergedRecord (k : Nat) (s s' : String) (b : Bucket) :
    stripId (mkMergedRecord k s b) = stripId (mkMergedRecord k s' b) := rfl

/-- The merge output is independent of the id stream, except for the id
fields themselves. -/
theorem mergeRuns_stripId_indep (dateParse : String → Option Int)
    (ids ids' : List String) (runs : List (List ExtractedReport)) :
    (mergeRuns dateParse ids runs).map stripId
      = (mergeRuns dateParse ids' runs).map stripId := by
  unfold mergeRuns
  rw [List.map_map, List.map_map]
  apply List.map_congr_left
  intro ie _
  exact stripId_mkMergedRecord _ _ _ _

/-- The `comparator of `suggestFacilities` is transitive. -/
theorem suggestCmp_trans (a b c : Facility × Nat)
    (hab : decide (b.2 < a.2 ∨ (b.2 = a.2 ∧ a.1.name ≤ b.1.name)) = true)
    (hbc : decide (c.2 < b.2 ∨ (c.2 = b.2 ∧ b.1.name ≤ c.1.name)) = true) :
    decide (c.2 < a.2 ∨ (c.2 = a.2 ∧ a.1.name ≤ c.1.name)) = true := by
  rw [decide_eq_true_eq] at hab hbc ⊢
  rcases hab with h1 | ⟨h1, h1'⟩ <;> rcases hbc with h2 | ⟨h2, h2'⟩
  · exact Or.inl (by omega)
  · exact Or.inl (by omega)
  · exact Or.inl (by omega)
  · exact Or.inr ⟨by omega, le_trans h1' h2'⟩

/-- The `comparator of `suggestFacilities` is total. -/
theorem suggestCmp_total (a b : Facility × Nat) :
    decide (b.2 < a.2 ∨ (b.2 = a.2 ∧ a.1.name ≤ b.1.name)) = true ∨
    decide (a.2 < b.2 ∨ (a.2 = b.2 ∧ b.1.name ≤ a.1.name)) = true := by
  rw [decide_eq_true_eq, decide_eq_true_eq]
  rcases Nat.lt_trichotomy a.2 b.2 with h | h | h
  · exact Or.inr (Or.inl h)
  · rcases le_total a.1.name b.1.name with hn | hn
    · exact Or.inl (Or.inr ⟨h.symm, hn⟩)
    · exact Or.inr (Or.inr ⟨h, hn⟩)
  · exact Or.inl (Or.inl h)

/-- Properties of the sort/filter/take/map pipeline of `suggestFacilities`
over any coherently scored list. -/
theorem facilityPipeline_props (needs : List String) (scored : List (Facility × Nat))
    (limit : Nat) (hcoh : ∀ s ∈ scored, s.2 = facilityScoreFor needs s.1) :
    ((((jsSortBy (fun a b => decide (b.2 < a.2 ∨ (b.2 = a.2 ∧ a.1.name ≤ b.1.name))) scored).filter
        fun s => decide (0 < s.2)).take limit).map fun s => s.1).length ≤ limit
    ∧ List.Forall (fun f => 0 < facilityScoreFor needs f)
        ((((jsSortBy (fun a b => decide (b.2 < a.2 ∨ (b.2 = a.2 ∧ a.1.name ≤ b.1.name))) scored).filter
          fun s => decide (0 < s.2)).take limit).map fun s => s.1)
    ∧ List.Pairwise
        (fun f g => facilityScoreFor needs g < facilityScoreFor needs f
          ∨ (facilityScoreFor needs g = facilityScoreFor needs f ∧ f.name ≤ g.name))
        ((((jsSortBy (fun a b => decide (b.2 < a.2 ∨ (b.2 = a.2 ∧ a.1.name ≤ b.1.name))) scored).filter
          fun s => decide (0 < s.2)).take limit).map fun s => s.1) := by
  have hcohS : ∀ s ∈ jsSortBy
      (fun a b => decide (b.2 < a.2 ∨ (b.2 = a.2 ∧ a.1.name ≤ b.1.name))) scored,
      s.2 = facilityScoreFor needs s.1 := by
    intro s hs
    exact hcoh s ((jsSortBy_perm _ _).mem_iff.mp hs)
  refine ⟨?_, ?_, ?_⟩
  · rw [List.length_map]
    exact List.length_take_le _ _
  · rw [List.forall_iff_forall_mem]
    intro f hf
    rcases List.mem_map.mp hf with ⟨s, hs, rfl⟩
    have hs' := List.take_subset _ _ hs
    rcases List.mem_filter.mp hs' with ⟨hsort, hpos⟩
    rw [← hcohS s hsort]
    exact of_decide_eq_true hpos
  · apply List.pairwise_map.mpr
    have hsorted := jsSortBy_sorted
      (fun a b => decide (b.2 < a.2 ∨ (b.2 = a.2 ∧ a.1.name ≤ b.1.name)))
      suggestCmp_trans suggestCmp_total scored
    have h1 := List.Pairwise.sublist
      (List.filter_sublist (p := fun s => decide (0 < s.2))
        (jsSortBy (fun a b => decide (b.2 < a.2 ∨ (b.2 = a.2 ∧ a.1.name ≤ b.1.name))) scored))
      hsorted
    have h2 := List.Pairwise.sublist (List.take_sublist limit _) h1
    refine List.Pairwise.imp_of_mem ?_ h2
    intro a b ha hb hab
    have hamem := (List.mem_filter.mp (List.take_subset _ _ ha)).1
    have hbmem := (List.mem_filter.mp (List.take_subset _ _ hb)).1
    have ha' := hcohS a hamem
    have hb' := hcohS b hbmem
    have hab' := of_decide_eq_true hab
    rw [ha', hb'] at hab'
    exact hab'

/-- Raw model text of the fenced-JSON salvage example: prose followed by a
```json fenced block with one report. -/
def exampleRaw : String :=
  "Here is the data:\n```json\n\x7b\"reports\":[\x7b\"location_text\":\"Pine St\",\"severity\":\"high\",\"needs\":[\"medical\"]\x7d]\x7d\n```"

/-- The `balanced object span inside `exampleRaw`. -/
def objSpan : String :=
  "\x7b\"reports\":[\x7b\"location_text\":\"Pine St\",\"severity\":\"high\",\"needs\":[\"medical\"]\x7d]\x7d"

/-- The `report object salvaged from `exampleRaw`. -/
def repJson : Json :=
  Json.obj [("location_text", Json.str "Pine St"), ("severity", Json.str "high"),
    ("needs", Json.arr [Json.str "medical"])]

/-- A well-formed model response carrying one report for `Pine St`. -/
def goodResp : String :=
  "\x7b\"reports\":[\x7b\"location_text\":\"Pine St\",\"severity\":\"high\",\"needs\":[\"medical\"]\x7d]\x7d"

/-- The `typed form of `repJson`. -/
def repTyped : ExtractedReport := ⟨some "Pine St", none, some "high", ["medical"], none, none⟩

/-- Two attempts that both return non-empty response text, of which only the
first is salvageable. -/
def attemptsC1 : List AttemptResult :=
  [AttemptResult.ok (some goodResp), AttemptResult.ok (some "not json")]

/-- One salvageable attempt followed by one failed HTTP call. -/
def attemptsC3 : List AttemptResult :=
  [AttemptResult.ok (some goodResp), AttemptResult.httpError 500 "boom"]

/-- A hospital with an `er` capability. -/
def hospFac : Facility :=
  ⟨"h1", FacilityType.hospital, "General Hospital", none, none, none, some ["er"]⟩

/-- A shelter with no matching capabilities. -/
def shelFac : Facility := ⟨"s1", FacilityType.shelter, "Shelter A", none, none, none, none⟩

/-- Claim C1 (counterexample): with two attempts that both return non-empty
response text but only one of which is salvageable, the handler's
denominator is `usedK runs.length = 1`, not the number of attempts with
response text (2); the bucketed per-field confidence is computed as
`count / 1 = 1` rather than `1 / 2`. -/
theorem claim_C1_counterexample :
    collectRuns attemptsC1 = Except.ok [⟨[repJson]⟩]
    ∧ attemptsWithResponseText attemptsC1 = 2
    ∧ usedK [(⟨[repJson]⟩ : ExtractResponse)].length = 1
    ∧ decodeReport repJson = some repTyped
    ∧ (mergeRuns (fun _ => none) ["u1"] [[repTyped]]).map (fun m => m.conf_location_text) = [1]
    ∧ (1 : Nat) ≠ 2 :=
  ⟨rfl, rfl, rfl, rfl, by decide, by decide⟩

/-- Claim C1 (amended): the confidence denominator `k` the handler uses
equals the number of attempts whose output was successfully salvaged into a
parsed run (`runs.length`), floored at 1 — not the number of attempts that
returned response text. -/
theorem claim_C1_amended_k_counts_salvaged (attempts : List AttemptResult)
    (h : ∀ a ∈ attempts, isHttpError a = false) :
    (collectRuns attempts).map (fun rs => usedK rs.length)
      = Except.ok (max 1 (attempts.countP fun a => (salvageAttempt a).isSome)) := by
  rw [collectRuns_ok attempts h]
  show Except.ok (usedK (attempts.filterMap salvageAttempt).length) = _
  rw [length_filterMap_countP, usedK_eq_max]

/-- Claim C1 (witness): the amended statement applied to the two concrete
attempts. -/
theorem claim_C1_witness :
    (∀ a ∈ attemptsC1, isHttpError a = false)
    ∧ (collectRuns attemptsC1).map (fun rs => usedK rs.length)
      = Except.ok (max 1 (attemptsC1.countP fun a => (salvageAttempt a).isSome)) :=
  ⟨by decide, claim_C1_amended_k_counts_salvaged attemptsC1 (by decide)⟩

/-- Claim C2: evaluating the merge at a valid input — one parsed run whose
reports array contains the same well-typed report twice — yields per-field
confidences of 2 and an overall confidence of 7/4, both outside [0,1],
violating the documented invariant; the risk score, by contrast, is always
clamped to [0,100]. -/
theorem claim_C2_confidence_exceeds_one :
    mergeRuns (fun _ => none) ["u"] [[repTyped, repTyped]]
      = [⟨"u", some "Pine St", none, some "high", ["medical"], none, none, 7/4, 2, 2, 2, 1⟩]
    ∧ ¬ ((7 : Rat)/4 ≤ 1)
    ∧ ¬ ((2 : Rat) ≤ 1)
    ∧ ∀ (dateParse : String → Option Int) (nowMs : Int) (severity : Option String)
        (needs : List String) (time_iso : Option String),
        0 ≤ computeRiskScore dateParse nowMs severity needs time_iso
        ∧ computeRiskScore dateParse nowMs severity needs time_iso ≤ 100 := by
  refine ⟨by decide, by decide, by decide, ?_⟩
  intro dateParse nowMs severity needs time_iso
  unfold computeRiskScore
  constructor
  · exact le_max_left _ _
  · exact max_le (by norm_num) (min_le_left _ _)

/-- Claim C3 (counterexample): a failed HTTP attempt is not dropped — it
aborts the whole ensemble with a 503 error even though another attempt
salvaged successfully. -/
theorem claim_C3_counterexample :
    (salvageAttempt (AttemptResult.ok (some goodResp))).isSome = true
    ∧ collectRuns attemptsC3 = Except.error ⟨503, "Ollama error: 500 boom"⟩ :=
  ⟨rfl, rfl⟩

/-- Claim C3 (amended): an empty or unparseable individual response is
dropped without aborting the ensemble — when no attempt fails at the HTTP
level, the loop succeeds and collects exactly the salvageable attempts;
an attempt whose HTTP call fails aborts the whole request with a 503. -/
theorem claim_C3_amended_drops_unparseable (attempts : List AttemptResult)
    (h : ∀ a ∈ attempts, isHttpError a = false) :
    collectRuns attempts = Except.ok (attempts.filterMap salvageAttempt) :=
  collectRuns_ok attempts h

/-- Claim C3 (witness): the amended statement applied to one salvageable,
one unparseable and one empty attempt. -/
theorem claim_C3_witness :
    (∀ a ∈ [AttemptResult.ok (some goodResp), AttemptResult.ok (some "garbage"),
        AttemptResult.ok (some "")], isHttpError a = false)
    ∧ collectRuns [AttemptResult.ok (some goodResp), AttemptResult.ok (some "garbage"),
        AttemptResult.ok (some "")]
      = Except.ok ([AttemptResult.ok (some goodResp), AttemptResult.ok (some "garbage"),
        AttemptResult.ok (some "")].filterMap salvageAttempt) :=
  ⟨by decide, claim_C3_amended_drops_unparseable _ (by decide)⟩

/-- Claim C4 (counterexample): two runs of the merge over the same ordered
candidate input differing only in the generated id stream produce merged
records that are not identical — the random `crypto.randomUUID()` id makes
the output depend on a source of nondeterminism. -/
theorem claim_C4_counterexample :
    mergeRuns (fun _ => none) ["id-a"] [[repTyped]]
      ≠ mergeRuns (fun _ => none) ["id-b"] [[repTyped]] := by
  decide

/-- Claim C4 (amended): for a fixed ordered input of candidate records and a
fixed date parser, every field of the merged records except the generated
`id` is byte-identical across runs — the bucketing and voting have no other
source of nondeterminism. -/
theorem claim_C4_amended_deterministic_modulo_id (dateParse : String → Option Int)
    (ids ids' : List String) (runs : List (List ExtractedReport)) :
    (mergeRuns dateParse ids runs).map stripId
      = (mergeRuns dateParse ids' runs).map stripId :=
  mergeRuns_stripId_indep dateParse ids ids' runs

/-- Claim C5: for every bucket pool and every `k ≥ 1`, any need token
(lower-cased, trimmed, nonempty) appearing in at least `ceil(k/2)` of the
bucket's candidate need lists is included in the merged needs. -/
theorem claim_C5_needs_majority_included (allNeeds : List (List String)) (k : Nat) (t : String)
    (hk : 1 ≤ k) (ht : t ≠ "")
    (hmaj : (k + 1) / 2 ≤ allNeeds.countP fun l => l.any fun n => jsTrim (jsToLower n) == t) :
    t ∈ (needsConsensus allNeeds k).1 :=
  needsConsensus_majority_mem allNeeds k t hk ht hmaj

/-- Claim C5 (witness): the majority statement applied to a concrete bucket
pool with `k = 3` and the token `medical` appearing in two of three lists. -/
theorem claim_C5_witness :
    1 ≤ 3 ∧ "medical" ≠ ""
    ∧ (3 + 1) / 2 ≤ [["Medical"], ["medical"], ["water"]].countP
        (fun l => l.any fun n => jsTrim (jsToLower n) == "medical")
    ∧ "medical" ∈ (needsConsensus [["Medical"], ["medical"], ["water"]] 3).1 :=
  ⟨by decide, by decide, by decide,
    claim_C5_needs_majority_included [["Medical"], ["medical"], ["water"]] 3 "medical"
      (by decide) (by decide) (by decide)⟩

/-- Claim C6: `normalizeNeeds` is idempotent — normalizing an already
normalized list returns the same list, contents and order, and the output
collapses duplicate canonical tokens to one first-seen occurrence (it is
duplicate-free). -/
theorem claim_C6_normalizeNeeds_idempotent (xs : List String) :
    normalizeNeeds (normalizeNeeds xs) = normalizeNeeds xs
    ∧ (normalizeNeeds xs).Nodup :=
  ⟨normalizeNeeds_idem xs, jsSetDedup_nodup _⟩

/-- Claim C7: `parseModelJson` tries its candidates in order — on the fenced
example the raw text fails to parse, the fence-stripped text still fails
(the prose prefix remains), there is no `<json>` tag pair, the balanced
span succeeds — and the salvage result is exactly one report with
`location_text = "Pine St"`. -/
theorem claim_C7_salvager_order_and_fenced_example :
    jsonParse exampleRaw = none
    ∧ jsonParse (stripCodeFences exampleRaw) = none
    ∧ betweenTags exampleRaw "<json>" "</json>" = none
    ∧ extractBalancedJson exampleRaw = some objSpan
    ∧ parseModelJson exampleRaw = Except.ok ⟨[repJson]⟩
    ∧ jsonGetField repJson "location_text" = some (Json.str "Pine St") :=
  ⟨rfl, rfl, rfl, rfl, rfl, rfl⟩

/-- Claim C8: `computeRiskScore` with severity `critical`, needs
`["medical","rescue"]` and an absent timestamp returns exactly 100, for any
date parser and clock: base 80 plus top-two need weights 25 and 20, times
the flat 0.9 no-timestamp penalty, rounded and clamped to [0,100]. -/
theorem claim_C8_riskScore_critical_no_timestamp (dateParse : String → Option Int)
    (nowMs : Int) :
    computeRiskScore dateParse nowMs (some "critical") ["medical", "rescue"] none = 100 := by
  have h : computeRiskScore dateParse nowMs (some "critical") ["medical", "rescue"] none
      = computeRiskScore (fun _ => none) 0 (some "critical") ["medical", "rescue"] none := rfl
  rw [h]
  decide

/-- Claim C9: `suggestFacilities` returns at most `limit` facilities, all
with positive score, ordered by descending score with ties broken by name
ascending; in particular for needs `["medical"]` over a hospital with an
`er` capability and a shelter with no matching capabilities it returns the
hospital first and omits the shelter. -/
theorem claim_C9_suggestFacilities_ordering :
    (∀ (needs : List String) (facilities : List Facility) (limit : Nat),
      (suggestFacilities needs facilities limit).length ≤ limit
      ∧ List.Forall (fun f => 0 < facilityScoreFor needs f)
          (suggestFacilities needs facilities limit)
      ∧ List.Pairwise
          (fun f g => facilityScoreFor needs g < facilityScoreFor needs f
            ∨ (facilityScoreFor needs g = facilityScoreFor needs f ∧ f.name ≤ g.name))
          (suggestFacilities needs facilities limit))
    ∧ suggestFacilities ["medical"] [shelFac, hospFac] 3 = [hospFac] := by
  constructor
  · intro needs facilities limit
    by_cases hempty : (normalizeNeeds needs).isEmpty = true
    · simp only [suggestFacilities]
      rw [if_pos hempty]
      refine ⟨Nat.zero_le _, ?_, ?_⟩ <;> simp
    · have hmain := facilityPipeline_props needs
        (facilities.map fun f => (f, scoreFacility f (desiredTypesFor (normalizeNeeds needs))
          (desiredCapsFor (normalizeNeeds needs)))) limit
        (by
          intro s hs
          rcases List.mem_map.mp hs with ⟨f, _, rfl⟩
          rfl)
      simp only [suggestFacilities]
      rw [if_neg hempty]
      exact hmain
  · decide

/-- Claim C10: `computeRiskScore` and `suggestFacilities` are insensitive to
pre-normalization of the needs input, because both normalize internally and
normalization is idempotent. -/
theorem claim_C10_normalization_insensitive (dateParse : String → Option Int) (nowMs : Int)
    (severity : Option String) (needs : List String) (time_iso : Option String)
    (facilities : List Facility) (limit : Nat) :
    computeRiskScore dateParse nowMs severity (normalizeNeeds needs) time_iso
      = computeRiskScore dateParse nowMs severity needs time_iso
    ∧ suggestFacilities (normalizeNeeds needs) facilities limit
      = suggestFacilities needs facilities limit := by
  constructor
  · unfold computeRiskScore
    rw [normalizeNeeds_idem]
  · unfold suggestFacilities
    rw [normalizeNeeds_idem]
